import Mathlib

/-!
Shallow embedding of the inline diff view manager of this repository
(`src/src/diffView/InlineDiff.ts`) and verification of the frozen claims
about it.

Modelling conventions:
* Documents are modelled at line granularity as `List String` (one entry per
  line, without the newline character).  Every text edit issued by the source
  uses positions of the form `(line, 0)`, so line granularity is lossless.
* Line numbers are modelled as `Int`, mirroring JavaScript numbers (the
  renumbering step subtracts and could in principle go negative).
* Diff segments come from the external `diffLines` library (the "Line
  Differ" of the spec); a segment is its `kind` together with the list of
  lines of its `value`.  The library guarantees `count` equals the number of
  lines of `value`, so `count` is modelled as `lines.length`.
* `editor.edit` resolves a boolean that the source ignores; the host's
  behaviour is modelled by an explicit `editOk : Bool` argument: when the
  edit is attempted and `editOk = false` the document is left unchanged.
* Reading a property of `undefined` (as `fileChange.changes[index].type`
  does for an out-of-bounds index) throws in JavaScript; fallible operations
  therefore return `Except String _`.
* A `WorkspaceEdit` holding pairwise disjoint deletions is applied by the
  host against the snapshot; the source inserts the deletions in descending
  order of start line, so the bulk application is modelled as the fold of
  the single-range cuts in exactly the order the loop inserts them.
-/

/-- Kind of a diff segment produced by the line differ (`diffLines`). -/
inductive SegKind : Type
  | unchanged
  | added
  | removed
  deriving DecidableEq

/-- One diff segment: its kind and the lines of its `value`.  The differ
contract guarantees `part.count` equals the number of lines of
`part.value`, so the count is `lines.length`. -/
structure Segment : Type where
  kind : SegKind
  lines : List String
  deriving DecidableEq

/-- `RemovedChange` of the source: `{ type: 'removed', line, count, value }`. -/
structure RemovedChange : Type where
  line : Int
  count : Nat
  value : List String
  deriving DecidableEq

/-- `AddedChange` of the source: `{ type: 'added', line, count, value }`. -/
structure AddedChange : Type where
  line : Int
  count : Nat
  value : List String
  deriving DecidableEq

/-- The `Change` union of the source: removed, added, or modified
(a removed block with the replacing added block below it). -/
inductive Change : Type
  | removed (r : RemovedChange)
  | added (a : AddedChange)
  | modified (removed : RemovedChange) (added : AddedChange)
  deriving DecidableEq

/-- Entry of `fileChangeMap`: original content, modified content and the
live change list (contents modelled as line lists). -/
structure FileChange : Type where
  originalContent : List String
  modifiedContent : List String
  changes : List Change
  deriving DecidableEq

/-- Lookup in the `fileChangeMap` (JavaScript `Map.get`). -/
def mapGet (m : List (String × FileChange)) (k : String) : Option FileChange :=
  (m.find? (fun e => e.1 == k)).map (·.2)

/-- `Map.set`: overwrite the entry for `k`. -/
def mapSet (m : List (String × FileChange)) (k : String) (v : FileChange) :
    List (String × FileChange) :=
  m.filter (fun e => !(e.1 == k)) ++ [(k, v)]

/-- `Map.delete`. -/
def mapDelete (m : List (String × FileChange)) (k : String) :
    List (String × FileChange) :=
  m.filter (fun e => !(e.1 == k))

/-- Scheme of a document URI; the manager only handles `file` (backed by a
file on disk) and `untitled` (no backing file) documents. -/
inductive UriScheme : Type
  | file
  | untitled
  deriving DecidableEq

/-- A text editor as far as the engine observes it: the shown document's
identity, scheme, content, dirty flag and the active cursor line. -/
structure Editor : Type where
  uri : String
  scheme : UriScheme
  doc : List String
  isDirty : Bool
  cursorLine : Int
  deriving DecidableEq

/-- State the engine reads and writes: the active editor and the
process-wide `fileChangeMap`. -/
structure EngineState : Type where
  activeEditor : Option Editor
  fileChangeMap : List (String × FileChange)
  deriving DecidableEq

/-- Kind of an `_onDidChange` notification. -/
inductive EventType : Type
  | add
  | accept
  | reject
  deriving DecidableEq

/-- An `_onDidChange` notification with the document path. -/
structure Event : Type where
  type : EventType
  path : String
  deriving DecidableEq

/-- Observable outcome of a single accept/reject operation.  `didSave` is
`none` when `saveDocument` was not invoked and `some b` when it was, `b`
recording whether `document.save()` actually ran (it is guarded by
`isDirty` inside `saveDocument`). -/
structure OpResult : Type where
  state : EngineState
  events : List Event
  didSave : Option Bool
  closedEditor : Bool
  hasChangesCtx : Option Bool
  deriving DecidableEq

/-- Result returned by every early-`return` path of the source: nothing
observable happens. -/
def noOpResult (st : EngineState) : OpResult :=
  { state := st, events := [], didSave := none, closedEditor := false,
    hasChangesCtx := none }

/-! ## Changeset builder (`openDiffView`, lines 592-642 of the source) -/

/-- Loop state of the changeset-building loop of `openDiffView`:
`lineNumber`, `combineContent` (as lines), the `changes` array and the
pending `lastRemoved`. -/
structure BuildAcc : Type where
  lineNumber : Int
  combine : List String
  changes : List Change
  lastRemoved : Option RemovedChange
  deriving DecidableEq

/-- One iteration of the `for (const part of differences)` loop.  `isLast`
tells whether `part` is the final element of `differences` (the source
compares `part === differences[differences.length - 1]`). -/
def buildStep (isLast : Bool) (acc : BuildAcc) (part : Segment) : BuildAcc :=
  match part.kind with
  | .removed =>
    let lr : RemovedChange :=
      { line := acc.lineNumber, count := part.lines.length, value := part.lines }
    { lineNumber := acc.lineNumber + (part.lines.length : Int)
      combine := acc.combine ++ part.lines
      changes := if isLast then acc.changes ++ [Change.removed lr] else acc.changes
      lastRemoved := some lr }
  | .added =>
    let ad : AddedChange :=
      { line := acc.lineNumber, count := part.lines.length, value := part.lines }
    { lineNumber := acc.lineNumber + (part.lines.length : Int)
      combine := acc.combine ++ part.lines
      changes := acc.changes ++
        [match acc.lastRemoved with
          | some lr => Change.modified lr ad
          | none => Change.added ad]
      lastRemoved := none }
  | .unchanged =>
    { lineNumber := acc.lineNumber + (part.lines.length : Int)
      combine := acc.combine ++ part.lines
      changes :=
        match acc.lastRemoved with
        | some lr => acc.changes ++ [Change.removed lr]
        | none => acc.changes
      lastRemoved :=
        match acc.lastRemoved with
        | some _ => none
        | none => none }

/-- The whole building loop of `openDiffView`. -/
def buildLoop : BuildAcc → List Segment → BuildAcc
  | acc, [] => acc
  | acc, part :: rest => buildLoop (buildStep rest.isEmpty acc part) rest

/-- Initial loop state of `openDiffView`: line 0, empty combined buffer,
no changes, no pending removed record. -/
def buildInit : BuildAcc :=
  { lineNumber := 0, combine := [], changes := [], lastRemoved := none }

/-- Observable outcome of `openDiffView`: the document content written (the
combined buffer), the updated store, the fired events and the last
`hasChanges` context value set. -/
structure OpenResult : Type where
  doc : List String
  fileChangeMap : List (String × FileChange)
  events : List Event
  hasChangesCtx : Option Bool
  deriving DecidableEq

/-- `openDiffView` (lines 568-677): build the change list and the combined
buffer from the differ's segments, replace the whole document with the
combined buffer, store the changeset, fire `add` and set the context flag.
`parts` is the output of the external `diffLines(currentLines, modifiedLines)`. -/
def openDiffView (m : List (String × FileChange)) (uri : String)
    (currentLines modifiedLines : List String) (parts : List Segment) : OpenResult :=
  let acc := buildLoop
    { lineNumber := 0, combine := [], changes := [], lastRemoved := none } parts
  { doc := acc.combine
    fileChangeMap := mapSet m uri
      { originalContent := currentLines, modifiedContent := modifiedLines,
        changes := acc.changes }
    events := [⟨EventType.add, uri⟩]
    hasChangesCtx := some true }

/-! ## Index lookup and renumbering -/

/-- Whether a change's line span contains the given line (the span test of
`getChangeIndex`, lines 335-349). -/
def containsLine (l : Int) : Change → Bool
  | .removed r => decide (r.line ≤ l) && decide (l < r.line + (r.count : Int))
  | .added a => decide (a.line ≤ l) && decide (l < a.line + (a.count : Int))
  | .modified r a =>
      decide (r.line ≤ l) &&
        decide (l < r.line + (r.count : Int) + (a.count : Int))

/-- Loop of `getChangeIndex`: first index whose span contains the line. -/
def getChangeIndexAux (l : Int) : Nat → List Change → Int
  | _, [] => -1
  | i, c :: rest =>
      if containsLine l c then (i : Int) else getChangeIndexAux l (i + 1) rest

/-- `getChangeIndex` (lines 327-352): index of the first change whose span
contains the cursor line, `-1` if none. -/
def getChangeIndex (cursorLine : Int) (changes : List Change) : Int :=
  getChangeIndexAux cursorLine 0 changes

/-- JavaScript array indexing `changes[index]`: `undefined` (`none`) for a
negative or out-of-bounds index. -/
def getChange (cs : List Change) (i : Int) : Option Change :=
  if 0 ≤ i then cs[i.toNat]? else none

/-- Decrement the line fields of a removed record by `k` (the
`change.removed.line -= count` step of `drawChanges`). -/
def shiftRemoved (k : Int) (r : RemovedChange) : RemovedChange :=
  { r with line := r.line - k }

/-- Decrement the line field of an added record by `k`. -/
def shiftAdded (k : Int) (a : AddedChange) : AddedChange :=
  { a with line := a.line - k }

/-- Decrement every line coordinate of a change by `k`. -/
def shiftChange (k : Int) : Change → Change
  | .removed r => .removed (shiftRemoved k r)
  | .added a => .added (shiftAdded k a)
  | .modified r a => .modified (shiftRemoved k r) (shiftAdded k a)

/-- The mutation of `drawChanges` when called with `index` and `count`
(lines 249-260): every change after `index` has its line coordinates
decremented by `count`, then the change at `index` is spliced out. -/
def renumber (cs : List Change) (index : Nat) (count : Nat) : List Change :=
  cs.take index ++ (cs.drop (index + 1)).map (shiftChange (count : Int))

/-! ## Single-change resolution (`acceptChange` / `rejectChange`) -/

/-- Replace the line range `[a, b)` of a document with `value`
(`edit.replace(range, value)` where both range positions have column 0). -/
def applyReplace (doc : List String) (a b : Int) (value : List String) :
    List String :=
  doc.take a.toNat ++ value ++ doc.drop b.toNat

/-- Range, replacement value and `count` computed by `acceptChange`
(lines 379-399): `none` range means no edit is issued (`count = 0`). -/
def acceptEditParams : Change → Option (Int × Int) × List String × Nat
  | .removed r => (some (r.line, r.line + (r.count : Int)), [], r.count)
  | .added _ => (none, [], 0)
  | .modified r a => (some (r.line, a.line + (a.count : Int)), a.value, r.count)

/-- Range, replacement value and `count` computed by `rejectChange`
(lines 450-468). -/
def rejectEditParams : Change → Option (Int × Int) × List String × Nat
  | .removed _ => (none, [], 0)
  | .added a => (some (a.line, a.line + (a.count : Int)), [], a.count)
  | .modified r a => (some (r.line, a.line + (a.count : Int)), r.value, a.count)

/-- Tail of `acceptChange` (lines 377-422) once the change at `index` has
been fetched: issue the edit (when `count ≠ 0`), renumber via
`drawChanges`, and on an emptied change list delete the store entry, fire
`accept` and save the document. -/
def acceptResolve (st : EngineState) (uri : String) (ed : Editor)
    (fc : FileChange) (index : Int) (change : Change) (editOk : Bool) :
    OpResult :=
  let p := acceptEditParams change
  let count := p.2.2
  let applied := decide (count ≠ 0) && editOk
  let doc' :=
    if applied then
      match p.1 with
      | some r => applyReplace ed.doc r.1 r.2 p.2.1
      | none => ed.doc
    else ed.doc
  let dirty' := ed.isDirty || applied
  let changes' := renumber fc.changes index.toNat count
  let ed' : Editor := { ed with doc := doc', isDirty := dirty' }
  if changes'.isEmpty then
    { state :=
        { activeEditor := some ed'
          fileChangeMap := mapDelete st.fileChangeMap uri }
      events := [⟨EventType.accept, uri⟩]
      didSave := some dirty'
      closedEditor := false
      hasChangesCtx := some false }
  else
    { state :=
        { activeEditor := some ed'
          fileChangeMap := mapSet st.fileChangeMap uri
            { fc with changes := changes' } }
      events := []
      didSave := none
      closedEditor := false
      hasChangesCtx := none }

/-- `acceptChange` (lines 354-423).  `i` is the optional explicit index
argument; `editOk` is whether the host applies the issued text edit (the
source ignores the boolean resolved by `editor.edit`). -/
def acceptChange (st : EngineState) (uri : String) (i : Option Int)
    (editOk : Bool) : Except String OpResult :=
  match st.activeEditor with
  | none => .ok (noOpResult st)
  | some ed =>
    if ed.uri = uri then
      match mapGet st.fileChangeMap uri with
      | none => .ok (noOpResult st)
      | some fc =>
        let index? : Option Int :=
          match i with
          | some n => some n
          | none =>
            let j := getChangeIndex ed.cursorLine fc.changes
            if j = -1 then none else some j
        match index? with
        | none => .ok (noOpResult st)
        | some index =>
          match getChange fc.changes index with
          | none => .error "TypeError: cannot read properties of undefined"
          | some change => .ok (acceptResolve st uri ed fc index change editOk)
    else .ok (noOpResult st)

/-- Tail of `rejectChange` (lines 448-497) once the change at `index` has
been fetched.  On an emptied change list a file-backed document is saved
while an untitled one is closed. -/
def rejectResolve (st : EngineState) (uri : String) (ed : Editor)
    (fc : FileChange) (index : Int) (change : Change) (editOk : Bool) :
    OpResult :=
  let p := rejectEditParams change
  let count := p.2.2
  let applied := decide (count ≠ 0) && editOk
  let doc' :=
    if applied then
      match p.1 with
      | some r => applyReplace ed.doc r.1 r.2 p.2.1
      | none => ed.doc
    else ed.doc
  let dirty' := ed.isDirty || applied
  let changes' := renumber fc.changes index.toNat count
  let ed' : Editor := { ed with doc := doc', isDirty := dirty' }
  if changes'.isEmpty then
    if ed.scheme = UriScheme.file then
      { state :=
          { activeEditor := some ed'
            fileChangeMap := mapDelete st.fileChangeMap uri }
        events := [⟨EventType.reject, uri⟩]
        didSave := some dirty'
        closedEditor := false
        hasChangesCtx := some false }
    else
      { state :=
          { activeEditor := some ed'
            fileChangeMap := mapDelete st.fileChangeMap uri }
        events := [⟨EventType.reject, uri⟩]
        didSave := none
        closedEditor := true
        hasChangesCtx := some false }
  else
    { state :=
        { activeEditor := some ed'
          fileChangeMap := mapSet st.fileChangeMap uri
            { fc with changes := changes' } }
      events := []
      didSave := none
      closedEditor := false
      hasChangesCtx := none }

/-- `rejectChange` (lines 425-497).  Mirrors `acceptChange`; when the change
list empties, a file-backed document is saved while an untitled one is
closed. -/
def rejectChange (st : EngineState) (uri : String) (i : Option Int)
    (editOk : Bool) : Except String OpResult :=
  match st.activeEditor with
  | none => .ok (noOpResult st)
  | some ed =>
    if ed.uri = uri then
      match mapGet st.fileChangeMap uri with
      | none => .ok (noOpResult st)
      | some fc =>
        let index? : Option Int :=
          match i with
          | some n => some n
          | none =>
            let j := getChangeIndex ed.cursorLine fc.changes
            if j = -1 then none else some j
        match index? with
        | none => .ok (noOpResult st)
        | some index =>
          match getChange fc.changes index with
          | none => .error "TypeError: cannot read properties of undefined"
          | some change => .ok (rejectResolve st uri ed fc index change editOk)
    else .ok (noOpResult st)

/-! ## Bulk resolution (`acceptAllChanges` / `rejectAllChanges`) -/

/-- Deletion range inserted by the `acceptAllChanges` loop for one change
(lines 690-710), as `(start line, line count)`; `none` for an added change. -/
def changeAcceptAllSpan : Change → Option (Int × Nat)
  | .added _ => none
  | .removed r => some (r.line, r.count)
  | .modified r _ => some (r.line, r.count)

/-- Deletion range inserted by the `rejectAllChanges` loop for one change
(lines 519-539); `none` for a removed change. -/
def changeRejectAllSpan : Change → Option (Int × Nat)
  | .added a => some (a.line, a.count)
  | .removed _ => none
  | .modified _ a => some (a.line, a.count)

/-- Delete the line range `[s.1, s.1 + s.2)` from a document. -/
def cutSpan (doc : List String) (s : Int × Nat) : List String :=
  doc.take s.1.toNat ++ doc.drop (s.1 + (s.2 : Int)).toNat

/-- Apply a `WorkspaceEdit` holding the given deletions.  The source inserts
them in descending start order over pairwise disjoint ranges, under which
the host's snapshot application coincides with folding the cuts in
insertion order. -/
def applyCutsDesc (doc : List String) (spans : List (Int × Nat)) : List String :=
  spans.foldl cutSpan doc

/-- Observable outcome of a bulk resolution. -/
structure AllResult : Type where
  doc : List String
  fileChangeMap : List (String × FileChange)
  events : List Event
  didSave : Option Bool
  closedEditor : Bool
  hasChangesCtx : Option Bool
  deriving DecidableEq

/-- `acceptAllChanges` (lines 679-730): delete, in descending index order,
the removed block of every removed/modified change, drop the store entry,
fire `accept`, clear the context flag and save the document.  `doc` is the
content of the editor shown for `uri`. -/
def acceptAllChanges (m : List (String × FileChange)) (uri : String)
    (doc : List String) (_scheme : UriScheme) (isDirty : Bool) : AllResult :=
  match mapGet m uri with
  | none =>
    { doc := doc, fileChangeMap := m, events := [], didSave := none,
      closedEditor := false, hasChangesCtx := none }
  | some fc =>
    let spans := fc.changes.reverse.filterMap changeAcceptAllSpan
    { doc := applyCutsDesc doc spans
      fileChangeMap := mapDelete m uri
      events := [⟨EventType.accept, uri⟩]
      didSave := some (isDirty || !spans.isEmpty)
      closedEditor := false
      hasChangesCtx := some false }

/-- `rejectAllChanges` (lines 507-566): delete, in descending index order,
the added block of every added/modified change, drop the store entry, fire
`reject`, clear the context flag, then save a file-backed document or close
an untitled one. -/
def rejectAllChanges (m : List (String × FileChange)) (uri : String)
    (doc : List String) (scheme : UriScheme) (isDirty : Bool) : AllResult :=
  match mapGet m uri with
  | none =>
    { doc := doc, fileChangeMap := m, events := [], didSave := none,
      closedEditor := false, hasChangesCtx := none }
  | some fc =>
    let spans := fc.changes.reverse.filterMap changeRejectAllSpan
    let doc' := applyCutsDesc doc spans
    if scheme = UriScheme.file then
      { doc := doc'
        fileChangeMap := mapDelete m uri
        events := [⟨EventType.reject, uri⟩]
        didSave := some (isDirty || !spans.isEmpty)
        closedEditor := false
        hasChangesCtx := some false }
    else
      { doc := doc'
        fileChangeMap := mapDelete m uri
        events := [⟨EventType.reject, uri⟩]
        didSave := none
        closedEditor := true
        hasChangesCtx := some false }

/-! ## Helper characterizations and spec-side definitions -/

/-- Changes emitted by the rest of the building loop, given the current
`lineNumber` and pending `lastRemoved`.  Same recursion as `buildLoop`,
restricted to the `changes` component (proved equal below). -/
def buildChangesR : Int → Option RemovedChange → List Segment → List Change
  | _, _, [] => []
  | n, pending, p :: rest =>
    match p.kind with
    | .removed =>
      let lr : RemovedChange :=
        { line := n, count := p.lines.length, value := p.lines }
      (if rest.isEmpty then [Change.removed lr] else []) ++
        buildChangesR (n + (p.lines.length : Int)) (some lr) rest
    | .added =>
      (match pending with
        | some lr =>
          Change.modified lr
            { line := n, count := p.lines.length, value := p.lines }
        | none =>
          Change.added
            { line := n, count := p.lines.length, value := p.lines }) ::
        buildChangesR (n + (p.lines.length : Int)) none rest
    | .unchanged =>
      (match pending with
        | some lr => [Change.removed lr]
        | none => []) ++
        buildChangesR (n + (p.lines.length : Int)) none rest

/-- Primary line coordinate of a change (the one used for ordering and for
the code-lens anchor): `startLine` for removed/added, `removed.startLine`
for modified. -/
def changeFirstLine : Change → Int
  | .removed r => r.line
  | .added a => a.line
  | .modified r _ => r.line

/-- Exclusive end of a change's line span in the combined buffer. -/
def changeEndLine : Change → Int
  | .removed r => r.line + (r.count : Int)
  | .added a => a.line + (a.count : Int)
  | .modified _ a => a.line + (a.count : Int)

/-- Well-formedness of one change: positive line counts, and for a modified
change the added block sits directly below the removed block. -/
def wfChange : Change → Bool
  | .removed r => decide (0 < r.count)
  | .added a => decide (0 < a.count)
  | .modified r a =>
      decide (0 < r.count) && decide (0 < a.count) &&
        decide (a.line = r.line + (r.count : Int))

/-- Well-formed change list: every change well-formed, and consecutive
changes ordered with disjoint spans (`end ≤ next start`; with positive
counts this is exactly "strictly increasing primary lines, no overlap"). -/
def WFChanges (cs : List Change) : Prop :=
  (∀ c ∈ cs, wfChange c = true) ∧
    List.Chain' (fun a b => changeEndLine a ≤ changeFirstLine b) cs

/-- Executable check equivalent to `WFChanges` (used for its decidability
instance). -/
def wfChangesB : List Change → Bool
  | [] => true
  | [c] => wfChange c
  | a :: b :: rest =>
    wfChange a && decide (changeEndLine a ≤ changeFirstLine b) &&
      wfChangesB (b :: rest)

instance : DecidablePred WFChanges := fun cs =>
  decidable_of_iff (wfChangesB cs = true) (by
    induction cs with
    | nil => simp [WFChanges, wfChangesB]
    | cons a l ih =>
      cases l with
      | nil => simp [WFChanges, wfChangesB]
      | cons b rest =>
        simp [WFChanges, wfChangesB, List.chain'_cons,
          List.forall_mem_cons] at ih ⊢
        tauto)

/-- Start positions and line counts of the segments of kind `k`, with the
first segment starting at line `n` of the combined buffer. -/
def spansOf (k : SegKind) : Int → List Segment → List (Int × Nat)
  | _, [] => []
  | n, p :: rest =>
    (if p.kind = k then [(n, p.lines.length)] else []) ++
      spansOf k (n + (p.lines.length : Int)) rest

/-- Concatenated lines of the segments whose kind is not `k`.  For a valid
diff of `O` and `M`, `keptOf .added` is `O` and `keptOf .removed` is `M`. -/
def keptOf (k : SegKind) (parts : List Segment) : List String :=
  (parts.filter (fun p => !(p.kind == k))).flatMap (·.lines)

/-- Concatenation of every segment's lines: the combined buffer. -/
def combinedOf (parts : List Segment) : List String :=
  parts.flatMap (·.lines)

/-- No two consecutive segments are both removed.  The line differ never
emits two adjacent removed segments (a replacement hunk is one removed
segment followed by one added segment). -/
def noAdjacentRemoved (parts : List Segment) : Prop :=
  List.Chain'
    (fun a b => ¬(a.kind = SegKind.removed ∧ b.kind = SegKind.removed)) parts

/-- Modelled from the spec (claim-side definition, to be compared with the
source's builder): one `Modified` record for a removed segment immediately
followed by an added segment; a standalone `Removed` for a removed segment
that is last or followed by anything but an added segment; a standalone
`Added` for an added segment not immediately preceded by a removed segment;
the line counter advances by every segment's line count. -/
def specMergeRecords : Int → List Segment → List Change
  | _, [] => []
  | n, [p] =>
    match p.kind with
    | .removed => [Change.removed { line := n, count := p.lines.length, value := p.lines }]
    | .added => [Change.added { line := n, count := p.lines.length, value := p.lines }]
    | .unchanged => []
  | n, p :: q :: rest =>
    match p.kind with
    | .removed =>
      if q.kind = SegKind.added then
        Change.modified
            { line := n, count := p.lines.length, value := p.lines }
            { line := n + (p.lines.length : Int), count := q.lines.length,
              value := q.lines } ::
          specMergeRecords
            (n + (p.lines.length : Int) + (q.lines.length : Int)) rest
      else
        Change.removed { line := n, count := p.lines.length, value := p.lines } ::
          specMergeRecords (n + (p.lines.length : Int)) (q :: rest)
    | .added =>
      Change.added { line := n, count := p.lines.length, value := p.lines } ::
        specMergeRecords (n + (p.lines.length : Int)) (q :: rest)
    | .unchanged => specMergeRecords (n + (p.lines.length : Int)) (q :: rest)

/-- Modelled from the spec: net number of lines an accept removes from the
document (0 for Added, `lineCount` for Removed, `removed.lineCount` for
Modified). -/
def specNetAccept : Change → Nat
  | .removed r => r.count
  | .added _ => 0
  | .modified r _ => r.count

/-- Modelled from the spec: net number of lines a reject removes from the
document (0 for Removed, `lineCount` for Added, `added.lineCount` for
Modified). -/
def specNetReject : Change → Nat
  | .removed _ => 0
  | .added a => a.count
  | .modified _ a => a.count

/-- Whether a fallible operation completed without throwing. -/
def isOkE (res : Except String OpResult) : Bool :=
  match res with
  | .ok _ => true
  | .error _ => false

/-- Change list stored for `uri` after an operation (`none` if the
operation threw or the store has no entry for `uri`). -/
def changesAfter (res : Except String OpResult) (uri : String) :
    Option (List Change) :=
  match res with
  | .error _ => none
  | .ok r => (mapGet r.state.fileChangeMap uri).map (·.changes)

/-- Store entry for `uri` after an operation, `none` when the operation
threw. -/
def storeAfter (res : Except String OpResult) (uri : String) :
    Option (Option FileChange) :=
  match res with
  | .error _ => none
  | .ok r => some (mapGet r.state.fileChangeMap uri)

/-- The `didSave` outcome of an operation (`none` also when it threw). -/
def didSaveOf (res : Except String OpResult) : Option Bool :=
  match res with
  | .error _ => none
  | .ok r => r.didSave

/-- Whether the operation closed the active editor. -/
def closedOf (res : Except String OpResult) : Bool :=
  match res with
  | .error _ => false
  | .ok r => r.closedEditor

/-- Document content of the active editor after an operation. -/
def edDocOf (res : Except String OpResult) : Option (List String) :=
  match res with
  | .error _ => none
  | .ok r => r.state.activeEditor.map (·.doc)

/-! ## Concrete example states used to exercise the operations -/

/-- A one-change changeset: one removed line `"b"` at line 0. -/
def exFc1 : FileChange :=
  { originalContent := ["a", "b"], modifiedContent := ["a"],
    changes := [Change.removed { line := 0, count := 1, value := ["b"] }] }

/-- A dirty file-backed editor showing the combined buffer for `exFc1`. -/
def exEd1 : Editor :=
  { uri := "u", scheme := UriScheme.file, doc := ["b", "c"], isDirty := true,
    cursorLine := 0 }

/-- Engine state: `exEd1` active, store holding `exFc1` under `"u"`. -/
def exSt1 : EngineState :=
  { activeEditor := some exEd1, fileChangeMap := [("u", exFc1)] }

/-- Untitled-scheme variant of `exEd1`. -/
def exEd1u : Editor := { exEd1 with scheme := UriScheme.untitled }

/-- Engine state with the untitled editor active. -/
def exSt1u : EngineState :=
  { activeEditor := some exEd1u, fileChangeMap := [("u", exFc1)] }

/-- Variant of `exEd1` whose cursor (line 5) is inside no change span. -/
def exEd5 : Editor := { exEd1 with cursorLine := 5 }

/-- Engine state with the cursor outside every change span. -/
def exSt5 : EngineState :=
  { activeEditor := some exEd5, fileChangeMap := [("u", exFc1)] }

/-- Three well-formed changes at lines 2, 8 and 15 (the renumbering
scenario of the spec). -/
def exFcB : FileChange :=
  { originalContent := [], modifiedContent := [],
    changes :=
      [Change.removed { line := 2, count := 3, value := ["r1", "r2", "r3"] },
       Change.added { line := 8, count := 1, value := ["a1"] },
       Change.removed { line := 15, count := 2, value := ["r4", "r5"] }] }

/-- Editor for the renumbering scenario. -/
def exEdB : Editor :=
  { uri := "u", scheme := UriScheme.file, doc := List.replicate 20 "l",
    isDirty := true, cursorLine := 0 }

/-- Engine state for the renumbering scenario. -/
def exStB : EngineState :=
  { activeEditor := some exEdB, fileChangeMap := [("u", exFcB)] }

/-- Diff segments for original `[A, B, C]` versus modified `[A, X, C]`. -/
def exParts4 : List Segment :=
  [{ kind := SegKind.unchanged, lines := ["A"] },
   { kind := SegKind.removed, lines := ["B"] },
   { kind := SegKind.added, lines := ["X"] },
   { kind := SegKind.unchanged, lines := ["C"] }]

/-! ## Basic lemmas about the store and the building loop -/

theorem find?_filter_ne (m : List (String × FileChange)) (k : String) :
    (m.filter (fun e => !(e.1 == k))).find? (fun e => e.1 == k) = none := by
  induction m with
  | nil => rfl
  | cons e m ih =>
    by_cases h : e.1 = k
    · simp [List.filter_cons, h, ih]
    · simp [List.filter_cons, h, List.find?_cons, ih]

theorem mapGet_mapSet_self (m : List (String × FileChange)) (k : String)
    (v : FileChange) : mapGet (mapSet m k v) k = some v := by
  simp [mapGet, mapSet, List.find?_append, find?_filter_ne]

theorem mapGet_mapDelete_self (m : List (String × FileChange)) (k : String) :
    mapGet (mapDelete m k) k = none := by
  simp [mapGet, mapDelete, find?_filter_ne]

theorem buildLoop_changes (parts : List Segment) : ∀ acc : BuildAcc,
    (buildLoop acc parts).changes =
      acc.changes ++ buildChangesR acc.lineNumber acc.lastRemoved parts := by
  induction parts with
  | nil => intro acc; simp [buildLoop, buildChangesR]
  | cons p rest ih =>
    intro acc
    rw [buildLoop, ih]
    cases hk : p.kind <;> cases hp : acc.lastRemoved <;>
      cases hr : rest.isEmpty <;>
        simp [buildStep, buildChangesR, hk, hp, hr, List.append_assoc]

theorem buildLoop_combine (parts : List Segment) : ∀ acc : BuildAcc,
    (buildLoop acc parts).combine = acc.combine ++ parts.flatMap (·.lines) := by
  induction parts with
  | nil => intro acc; simp [buildLoop]
  | cons p rest ih =>
    intro acc
    rw [buildLoop, ih]
    cases hk : p.kind <;> cases hp : acc.lastRemoved <;>
      simp [buildStep, hk, hp, List.append_assoc]

theorem buildLoop_lineNumber (parts : List Segment) : ∀ acc : BuildAcc,
    (buildLoop acc parts).lineNumber =
      acc.lineNumber + ((parts.map (fun p => (p.lines.length : Int))).sum) := by
  induction parts with
  | nil => intro acc; simp [buildLoop]
  | cons p rest ih =>
    intro acc
    rw [buildLoop, ih]
    cases hk : p.kind <;> cases hp : acc.lastRemoved <;>
      · simp [buildStep, hk, hp]; ring

theorem getChange_natCast (cs : List Change) (i : Nat) :
    getChange cs (i : Int) = cs[i]? := by
  simp [getChange]

theorem acceptChange_resolve (st : EngineState) (ed : Editor)
    (fc : FileChange) (index : Int) (c : Change) (editOk : Bool)
    (h1 : st.activeEditor = some ed)
    (h3 : mapGet st.fileChangeMap ed.uri = some fc)
    (h4 : getChange fc.changes index = some c) :
    acceptChange st ed.uri (some index) editOk =
      .ok (acceptResolve st ed.uri ed fc index c editOk) := by
  simp [acceptChange, h1, h3, h4]

theorem rejectChange_resolve (st : EngineState) (ed : Editor)
    (fc : FileChange) (index : Int) (c : Change) (editOk : Bool)
    (h1 : st.activeEditor = some ed)
    (h3 : mapGet st.fileChangeMap ed.uri = some fc)
    (h4 : getChange fc.changes index = some c) :
    rejectChange st ed.uri (some index) editOk =
      .ok (rejectResolve st ed.uri ed fc index c editOk) := by
  simp [rejectChange, h1, h3, h4]

/-! ## Claims C9, C6, C7, C10 -/

/-- C9: `acceptChange` and `rejectChange` are silent no-ops unless the
target document is the one shown in the active editor: with no active
editor, or an active editor showing a different document, the calls return
the unchanged state, fire no event, save nothing and close nothing. -/
theorem claim_C9_requires_active_editor (st : EngineState) (uri : String)
    (i : Option Int) (editOk : Bool)
    (h : ∀ ed : Editor, st.activeEditor = some ed → ed.uri ≠ uri) :
    acceptChange st uri i editOk = .ok (noOpResult st) ∧
    rejectChange st uri i editOk = .ok (noOpResult st) := by
  cases hed : st.activeEditor with
  | none => simp [acceptChange, rejectChange, hed]
  | some ed =>
    have hne := h ed hed
    simp [acceptChange, rejectChange, hed, hne]

/-- Witness for C9 at a concrete state whose active editor shows `"u"`
while the operation targets `"v"`. -/
theorem claim_C9_witness :
    acceptChange exSt1 "v" (some 0) true = .ok (noOpResult exSt1) ∧
    rejectChange exSt1 "v" (some 0) true = .ok (noOpResult exSt1) :=
  claim_C9_requires_active_editor exSt1 "v" (some 0) true
    (by intro ed hed; cases hed; decide)

/-- C6: resolving the only remaining change record, by accept or by reject,
always leaves the store without an entry for the document. -/
theorem claim_C6_last_record_removes_changeset (st : EngineState)
    (ed : Editor) (fc : FileChange) (c : Change) (editOk : Bool)
    (h1 : st.activeEditor = some ed)
    (h3 : mapGet st.fileChangeMap ed.uri = some fc)
    (hone : fc.changes = [c]) :
    (isOkE (acceptChange st ed.uri (some 0) editOk) = true ∧
      storeAfter (acceptChange st ed.uri (some 0) editOk) ed.uri = some none) ∧
    (isOkE (rejectChange st ed.uri (some 0) editOk) = true ∧
      storeAfter (rejectChange st ed.uri (some 0) editOk) ed.uri = some none) := by
  have h4 : getChange fc.changes 0 = some c := by
    simp [getChange, hone]
  constructor
  · rw [acceptChange_resolve st ed fc 0 c editOk h1 h3 h4]
    refine ⟨rfl, ?_⟩
    simp [storeAfter, acceptResolve, renumber, hone, mapGet_mapDelete_self]
  · rw [rejectChange_resolve st ed fc 0 c editOk h1 h3 h4]
    refine ⟨rfl, ?_⟩
    cases hsch : ed.scheme <;>
      simp [storeAfter, rejectResolve, renumber, hone, hsch,
        mapGet_mapDelete_self]

/-- Witness for C6 at the concrete one-change state `exSt1`. -/
theorem claim_C6_witness :
    (isOkE (acceptChange exSt1 "u" (some 0) true) = true ∧
      storeAfter (acceptChange exSt1 "u" (some 0) true) "u" = some none) ∧
    (isOkE (rejectChange exSt1 "u" (some 0) true) = true ∧
      storeAfter (rejectChange exSt1 "u" (some 0) true) "u" = some none) :=
  claim_C6_last_record_removes_changeset exSt1 exEd1 exFc1
    (Change.removed { line := 0, count := 1, value := ["b"] }) true
    rfl (by decide) rfl

/-- C7: an emptying accept always takes the save path (whatever the
scheme); an emptying reject saves a file-backed document but closes an
untitled one.  Stated both for single-change resolution emptying the list
and for the bulk operations (which always empty it). -/
theorem claim_C7_save_close_asymmetry :
    (∀ (st : EngineState) (ed : Editor) (fc : FileChange) (c : Change)
        (editOk : Bool),
      st.activeEditor = some ed →
      mapGet st.fileChangeMap ed.uri = some fc →
      fc.changes = [c] →
      ed.isDirty = true →
      (didSaveOf (acceptChange st ed.uri (some 0) editOk) = some true ∧
        closedOf (acceptChange st ed.uri (some 0) editOk) = false) ∧
      (ed.scheme = UriScheme.untitled →
        didSaveOf (rejectChange st ed.uri (some 0) editOk) = none ∧
        closedOf (rejectChange st ed.uri (some 0) editOk) = true) ∧
      (ed.scheme = UriScheme.file →
        didSaveOf (rejectChange st ed.uri (some 0) editOk) = some true ∧
        closedOf (rejectChange st ed.uri (some 0) editOk) = false)) ∧
    (∀ (m : List (String × FileChange)) (uri : String) (doc : List String)
        (sch : UriScheme) (dirty : Bool) (fc : FileChange),
      mapGet m uri = some fc →
      ((acceptAllChanges m uri doc sch dirty).didSave.isSome = true ∧
        (acceptAllChanges m uri doc sch dirty).closedEditor = false) ∧
      (sch = UriScheme.untitled →
        (rejectAllChanges m uri doc sch dirty).didSave = none ∧
        (rejectAllChanges m uri doc sch dirty).closedEditor = true) ∧
      (sch = UriScheme.file →
        (rejectAllChanges m uri doc sch dirty).didSave.isSome = true ∧
        (rejectAllChanges m uri doc sch dirty).closedEditor = false)) := by
  constructor
  · intro st ed fc c editOk h1 h3 hone hdirty
    have h4 : getChange fc.changes 0 = some c := by
      simp [getChange, hone]
    refine ⟨?_, ?_, ?_⟩
    · rw [acceptChange_resolve st ed fc 0 c editOk h1 h3 h4]
      constructor
      · simp [didSaveOf, acceptResolve, renumber, hone, hdirty]
      · simp [closedOf, acceptResolve, renumber, hone]
    · intro hsch
      rw [rejectChange_resolve st ed fc 0 c editOk h1 h3 h4]
      constructor
      · simp [didSaveOf, rejectResolve, renumber, hone, hsch]
      · simp [closedOf, rejectResolve, renumber, hone, hsch]
    · intro hsch
      rw [rejectChange_resolve st ed fc 0 c editOk h1 h3 h4]
      constructor
      · simp [didSaveOf, rejectResolve, renumber, hone, hsch, hdirty]
      · simp [closedOf, rejectResolve, renumber, hone, hsch]
  · intro m uri doc sch dirty fc h
    refine ⟨?_, ?_, ?_⟩
    · constructor <;> simp [acceptAllChanges, h]
    · intro hsch
      constructor <;> simp [rejectAllChanges, h, hsch]
    · intro hsch
      constructor <;> simp [rejectAllChanges, h, hsch]

/-- Witness for C7: the single-change part applied at a file-backed and at
an untitled concrete state, and the bulk part at the file-backed one. -/
theorem claim_C7_witness :
    (didSaveOf (acceptChange exSt1 "u" (some 0) true) = some true ∧
      closedOf (acceptChange exSt1 "u" (some 0) true) = false) ∧
    (didSaveOf (rejectChange exSt1 "u" (some 0) true) = some true ∧
      closedOf (rejectChange exSt1 "u" (some 0) true) = false) ∧
    (didSaveOf (rejectChange exSt1u "u" (some 0) true) = none ∧
      closedOf (rejectChange exSt1u "u" (some 0) true) = true) ∧
    ((acceptAllChanges [("u", exFc1)] "u" ["b", "c"] UriScheme.file true).didSave.isSome = true ∧
      (rejectAllChanges [("u", exFc1)] "u" ["b", "c"] UriScheme.untitled true).closedEditor = true) := by
  have hfile := (claim_C7_save_close_asymmetry.1 exSt1 exEd1 exFc1
    (Change.removed { line := 0, count := 1, value := ["b"] }) true
    rfl (by decide) rfl rfl)
  have huntitled := (claim_C7_save_close_asymmetry.1 exSt1u exEd1u exFc1
    (Change.removed { line := 0, count := 1, value := ["b"] }) true
    rfl (by decide) rfl rfl)
  have hbulk := (claim_C7_save_close_asymmetry.2 [("u", exFc1)] "u" ["b", "c"]
    UriScheme.file true exFc1 (by decide))
  have hbulku := (claim_C7_save_close_asymmetry.2 [("u", exFc1)] "u" ["b", "c"]
    UriScheme.untitled true exFc1 (by decide))
  exact ⟨hfile.1, hfile.2.2 rfl, huntitled.2.1 rfl,
    (hbulk.1).1, (hbulku.2.1 rfl).2⟩

/-- Changes emitted by the building loop when every diff segment is
unchanged: none. -/
theorem buildChangesR_all_unchanged (parts : List Segment) : ∀ n : Int,
    (∀ p ∈ parts, p.kind = SegKind.unchanged) →
    buildChangesR n none parts = [] := by
  induction parts with
  | nil => intro n _; rfl
  | cons p rest ih =>
    intro n h
    have hp := h p (by simp)
    simp [buildChangesR, hp, ih _ (fun q hq => h q (by simp [hq]))]

/-- C10: applying a diff whose proposed content equals the current content
(the differ then reports only unchanged segments) still stores a changeset
-- with an empty change list -- still fires the `add` signal and still sets
the has-changes flag. -/
theorem claim_C10_empty_diff_still_stored (m : List (String × FileChange))
    (uri : String) (cur mod : List String) (parts : List Segment)
    (h : ∀ p ∈ parts, p.kind = SegKind.unchanged) :
    mapGet (openDiffView m uri cur mod parts).fileChangeMap uri =
      some { originalContent := cur, modifiedContent := mod, changes := [] } ∧
    (openDiffView m uri cur mod parts).events = [⟨EventType.add, uri⟩] ∧
    (openDiffView m uri cur mod parts).hasChangesCtx = some true := by
  refine ⟨?_, rfl, rfl⟩
  have hch : (buildLoop
      { lineNumber := 0, combine := [], changes := [], lastRemoved := none }
      parts).changes = [] := by
    rw [buildLoop_changes]
    simpa using buildChangesR_all_unchanged parts 0 h
  simp [openDiffView, hch, mapGet_mapSet_self]

/-- Witness for C10 with one unchanged segment (`diffLines` output for two
equal two-line documents). -/
theorem claim_C10_witness :
    mapGet (openDiffView [] "u" ["A", "B"] ["A", "B"]
        [{ kind := SegKind.unchanged, lines := ["A", "B"] }]).fileChangeMap "u" =
      some { originalContent := ["A", "B"], modifiedContent := ["A", "B"],
             changes := [] } ∧
    (openDiffView [] "u" ["A", "B"] ["A", "B"]
        [{ kind := SegKind.unchanged, lines := ["A", "B"] }]).events =
      [⟨EventType.add, "u"⟩] ∧
    (openDiffView [] "u" ["A", "B"] ["A", "B"]
        [{ kind := SegKind.unchanged, lines := ["A", "B"] }]).hasChangesCtx =
      some true :=
  claim_C10_empty_diff_still_stored [] "u" ["A", "B"] ["A", "B"]
    [{ kind := SegKind.unchanged, lines := ["A", "B"] }] (by decide)

/-! ## Claims C4 and C5 (error handling) -/

/-- Counterexample to C4 as stated: at a concrete one-change state, when
the host fails to apply the edit (`editOk = false`), the operation does
not surface a failure (it completes ok) and the changeset is not left
unchanged (the record is removed; the entry is even deleted). -/
theorem claim_C4_counterexample :
    ¬(isOkE (acceptChange exSt1 "u" (some 0) false) = false) ∧
    ¬(storeAfter (acceptChange exSt1 "u" (some 0) false) "u" =
        some (some exFc1)) := by
  constructor <;> decide

/-- C4 (amended): when the host fails to apply the edit of a single accept
or reject, the call still completes without error, the record is removed
and the remaining records are renumbered exactly as if the edit had been
applied; only the document text stays unchanged. -/
theorem claim_C4_edit_failure_commits_renumbering (st : EngineState)
    (ed : Editor) (fc : FileChange) (index : Int) (c : Change)
    (h1 : st.activeEditor = some ed)
    (h3 : mapGet st.fileChangeMap ed.uri = some fc)
    (h4 : getChange fc.changes index = some c) :
    (isOkE (acceptChange st ed.uri (some index) false) = true ∧
      changesAfter (acceptChange st ed.uri (some index) false) ed.uri =
        changesAfter (acceptChange st ed.uri (some index) true) ed.uri ∧
      edDocOf (acceptChange st ed.uri (some index) false) = some ed.doc) ∧
    (isOkE (rejectChange st ed.uri (some index) false) = true ∧
      changesAfter (rejectChange st ed.uri (some index) false) ed.uri =
        changesAfter (rejectChange st ed.uri (some index) true) ed.uri ∧
      edDocOf (rejectChange st ed.uri (some index) false) = some ed.doc) := by
  constructor
  · rw [acceptChange_resolve st ed fc index c false h1 h3 h4,
      acceptChange_resolve st ed fc index c true h1 h3 h4]
    refine ⟨rfl, ?_, ?_⟩
    · by_cases h : (renumber fc.changes index.toNat
          (acceptEditParams c).2.2).isEmpty <;>
        simp [changesAfter, acceptResolve, h]
    · by_cases h : (renumber fc.changes index.toNat
          (acceptEditParams c).2.2).isEmpty <;>
        simp [edDocOf, acceptResolve, h]
  · rw [rejectChange_resolve st ed fc index c false h1 h3 h4,
      rejectChange_resolve st ed fc index c true h1 h3 h4]
    refine ⟨rfl, ?_, ?_⟩
    · by_cases h : (renumber fc.changes index.toNat
          (rejectEditParams c).2.2).isEmpty <;>
        cases hsch : ed.scheme <;>
          simp [changesAfter, rejectResolve, h, hsch]
    · by_cases h : (renumber fc.changes index.toNat
          (rejectEditParams c).2.2).isEmpty <;>
        cases hsch : ed.scheme <;>
          simp [edDocOf, rejectResolve, h, hsch]

/-- Witness for the amended C4 at the concrete state `exSt1`. -/
theorem claim_C4_witness :
    (isOkE (acceptChange exSt1 "u" (some 0) false) = true ∧
      changesAfter (acceptChange exSt1 "u" (some 0) false) "u" =
        changesAfter (acceptChange exSt1 "u" (some 0) true) "u" ∧
      edDocOf (acceptChange exSt1 "u" (some 0) false) = some ["b", "c"]) ∧
    (isOkE (rejectChange exSt1 "u" (some 0) false) = true ∧
      changesAfter (rejectChange exSt1 "u" (some 0) false) "u" =
        changesAfter (rejectChange exSt1 "u" (some 0) true) "u" ∧
      edDocOf (rejectChange exSt1 "u" (some 0) false) = some ["b", "c"]) :=
  claim_C4_edit_failure_commits_renumbering exSt1 exEd1 exFc1 0
    (Change.removed { line := 0, count := 1, value := ["b"] })
    rfl (by decide) (by decide)

/-- Counterexample to C5 as stated: at a concrete state whose change list
has one entry, an explicit index 5 is not a silent no-op -- the operation
fails (the source dereferences `undefined`). -/
theorem claim_C5_counterexample :
    ¬(isOkE (acceptChange exSt1 "u" (some 5) true) = true) := by
  decide

/-- When no change span contains the line, the index scan returns -1. -/
theorem getChangeIndexAux_none (l : Int) (cs : List Change)
    (h : ∀ c ∈ cs, containsLine l c = false) :
    ∀ k : Nat, getChangeIndexAux l k cs = -1 := by
  induction cs with
  | nil => intro k; rfl
  | cons c rest ih =>
    intro k
    have hc := h c (by simp)
    simp [getChangeIndexAux, hc]
    exact ih (fun d hd => h d (by simp [hd])) (k + 1)

/-- C5 (amended): a position-inference lookup that matches no record's span
is a silent no-op, while an explicit index outside the bounds of the change
list makes the operation fail with an error (the JavaScript dereference of
`undefined`) before any edit or renumbering, for accept and reject alike. -/
theorem claim_C5_unresolvable_index (st : EngineState) (ed : Editor)
    (fc : FileChange) (editOk : Bool) (idx : Int)
    (h1 : st.activeEditor = some ed)
    (h3 : mapGet st.fileChangeMap ed.uri = some fc)
    (hmiss : ∀ c ∈ fc.changes, containsLine ed.cursorLine c = false)
    (hoob : getChange fc.changes idx = none) :
    (acceptChange st ed.uri none editOk = .ok (noOpResult st) ∧
      rejectChange st ed.uri none editOk = .ok (noOpResult st)) ∧
    (isOkE (acceptChange st ed.uri (some idx) editOk) = false ∧
      isOkE (rejectChange st ed.uri (some idx) editOk) = false) := by
  have hidx : getChangeIndex ed.cursorLine fc.changes = -1 :=
    getChangeIndexAux_none ed.cursorLine fc.changes hmiss 0
  constructor
  · constructor <;>
      simp [acceptChange, rejectChange, h1, h3, getChangeIndex] at hidx ⊢ <;>
        simp [hidx]
  · constructor <;> simp [acceptChange, rejectChange, isOkE, h1, h3, hoob]

/-- Witness for the amended C5: cursor at line 5 misses the single span
`[0, 1)`; explicit index 7 is out of bounds. -/
theorem claim_C5_witness :
    (acceptChange exSt5 "u" none true = .ok (noOpResult exSt5) ∧
      rejectChange exSt5 "u" none true = .ok (noOpResult exSt5)) ∧
    (isOkE (acceptChange exSt5 "u" (some 7) true) = false ∧
      isOkE (rejectChange exSt5 "u" (some 7) true) = false) :=
  claim_C5_unresolvable_index exSt5 exEd5 exFc1 true 7
    rfl (by decide) (by decide) (by decide)

/-! ## Claim C2 (renumbering amounts) -/

/-- A well-formed change starts strictly before it ends. -/
theorem first_lt_end (c : Change) (h : wfChange c = true) :
    changeFirstLine c < changeEndLine c := by
  cases c <;> simp [wfChange, changeFirstLine, changeEndLine] at h ⊢ <;> omega

/-- Well-formed change lists have strictly increasing primary lines. -/
theorem wf_chain_lt : ∀ cs : List Change, WFChanges cs →
    List.Chain' (fun a b => changeFirstLine a < changeFirstLine b) cs := by
  intro cs
  induction cs with
  | nil => intro _; simp
  | cons a l ih =>
    intro h
    obtain ⟨hwf, hch⟩ := h
    rw [List.chain'_cons'] at hch
    rw [List.chain'_cons']
    constructor
    · intro y hy
      have h1 := hch.1 y hy
      have h2 := first_lt_end a (hwf a (by simp))
      omega
    · exact ih ⟨fun c hc => hwf c (by simp [hc]), hch.2⟩

/-- Pairwise form of the strict ordering of a well-formed change list. -/
theorem wf_first_pairwise (cs : List Change) (h : WFChanges cs) :
    List.Pairwise (fun a b => changeFirstLine a < changeFirstLine b) cs := by
  haveI : IsTrans Change (fun a b => changeFirstLine a < changeFirstLine b) :=
    ⟨fun _ _ _ hab hbc => lt_trans hab hbc⟩
  exact (List.chain'_iff_pairwise).1 (wf_chain_lt cs h)

/-- The `count` computed by `acceptChange` equals the spec's net accept
deletion amount. -/
theorem acceptEditParams_count (c : Change) :
    (acceptEditParams c).2.2 = specNetAccept c := by
  cases c <;> rfl

/-- The `count` computed by `rejectChange` equals the spec's net reject
deletion amount. -/
theorem rejectEditParams_count (c : Change) :
    (rejectEditParams c).2.2 = specNetReject c := by
  cases c <;> rfl

/-- Stored change list after `acceptResolve`: the renumbered list, or no
entry when it emptied. -/
theorem acceptResolve_changes (st : EngineState) (uri : String) (ed : Editor)
    (fc : FileChange) (index : Int) (c : Change) (editOk : Bool) :
    (mapGet (acceptResolve st uri ed fc index c editOk).state.fileChangeMap
        uri).map (·.changes) =
      (if (renumber fc.changes index.toNat (acceptEditParams c).2.2).isEmpty
        then none
        else some (renumber fc.changes index.toNat (acceptEditParams c).2.2)) := by
  by_cases h : (renumber fc.changes index.toNat (acceptEditParams c).2.2).isEmpty <;>
    simp [acceptResolve, h, mapGet_mapDelete_self, mapGet_mapSet_self]

/-- Stored change list after `rejectResolve`. -/
theorem rejectResolve_changes (st : EngineState) (uri : String) (ed : Editor)
    (fc : FileChange) (index : Int) (c : Change) (editOk : Bool) :
    (mapGet (rejectResolve st uri ed fc index c editOk).state.fileChangeMap
        uri).map (·.changes) =
      (if (renumber fc.changes index.toNat (rejectEditParams c).2.2).isEmpty
        then none
        else some (renumber fc.changes index.toNat (rejectEditParams c).2.2)) := by
  by_cases h : (renumber fc.changes index.toNat (rejectEditParams c).2.2).isEmpty
  · cases hsch : ed.scheme <;>
      simp [rejectResolve, h, hsch, mapGet_mapDelete_self]
  · simp [rejectResolve, h, mapGet_mapSet_self]

/-- C2: resolving the record at index `i` leaves the records before `i`
untouched and decrements the line coordinates of every later record --
exactly those with a greater primary coordinate, by the sortedness
hypothesis and the third conjunct -- by the net deletion amount of the
edit: 0 for accept-Added / reject-Removed, the record's count for
accept-Removed / reject-Added, `removed.count` for accept-Modified and
`added.count` for reject-Modified. -/
theorem claim_C2_renumbering (st : EngineState) (ed : Editor)
    (fc : FileChange) (i : Nat) (c : Change) (editOk : Bool)
    (h1 : st.activeEditor = some ed)
    (h3 : mapGet st.fileChangeMap ed.uri = some fc)
    (hwf : WFChanges fc.changes)
    (h4 : fc.changes[i]? = some c) :
    changesAfter (acceptChange st ed.uri (some (i : Int)) editOk) ed.uri =
      (if (fc.changes.take i ++ (fc.changes.drop (i + 1)).map
            (shiftChange (specNetAccept c : Int))).isEmpty
        then none
        else some (fc.changes.take i ++ (fc.changes.drop (i + 1)).map
          (shiftChange (specNetAccept c : Int)))) ∧
    changesAfter (rejectChange st ed.uri (some (i : Int)) editOk) ed.uri =
      (if (fc.changes.take i ++ (fc.changes.drop (i + 1)).map
            (shiftChange (specNetReject c : Int))).isEmpty
        then none
        else some (fc.changes.take i ++ (fc.changes.drop (i + 1)).map
          (shiftChange (specNetReject c : Int)))) ∧
    (∀ (j : Nat) (d : Change), i < j → fc.changes[j]? = some d →
      changeFirstLine c < changeFirstLine d) := by
  have h4' : getChange fc.changes (i : Int) = some c := by
    rw [getChange_natCast]; exact h4
  obtain ⟨hlen, hci⟩ := List.getElem?_eq_some.1 h4
  refine ⟨?_, ?_, ?_⟩
  · rw [acceptChange_resolve st ed fc (i : Int) c editOk h1 h3 h4']
    show (mapGet (acceptResolve st ed.uri ed fc (i : Int) c
        editOk).state.fileChangeMap ed.uri).map (·.changes) = _
    rw [acceptResolve_changes]
    simp [renumber, acceptEditParams_count]
  · rw [rejectChange_resolve st ed fc (i : Int) c editOk h1 h3 h4']
    show (mapGet (rejectResolve st ed.uri ed fc (i : Int) c
        editOk).state.fileChangeMap ed.uri).map (·.changes) = _
    rw [rejectResolve_changes]
    simp [renumber, rejectEditParams_count]
  · intro j d hij hjd
    obtain ⟨hjlen, hcj⟩ := List.getElem?_eq_some.1 hjd
    have hp := wf_first_pairwise fc.changes hwf
    rw [List.pairwise_iff_getElem] at hp
    have := hp i j hlen hjlen hij
    rw [hci, hcj] at this
    exact this

/-- Witness for C2: the spec's concrete scenario -- records at lines
[2, 8, 15], accepting the removed record at line 2 deletes 3 lines and the
survivors report lines [5, 12]; rejecting it deletes nothing and they stay
at [8, 15]. -/
theorem claim_C2_witness :
    changesAfter (acceptChange exStB "u" (some 0) true) "u" =
      some [Change.added { line := 5, count := 1, value := ["a1"] },
            Change.removed { line := 12, count := 2, value := ["r4", "r5"] }] ∧
    changesAfter (rejectChange exStB "u" (some 0) true) "u" =
      some [Change.added { line := 8, count := 1, value := ["a1"] },
            Change.removed { line := 15, count := 2, value := ["r4", "r5"] }] := by
  have h := claim_C2_renumbering exStB exEdB exFcB 0
    (Change.removed { line := 2, count := 3, value := ["r1", "r2", "r3"] }) true
    rfl (by decide) (by decide) (by decide)
  constructor
  · show changesAfter (acceptChange exStB exEdB.uri (some ((0 : Nat) : Int))
        true) exEdB.uri = _
    rw [h.1]; decide
  · show changesAfter (rejectChange exStB exEdB.uri (some ((0 : Nat) : Int))
        true) exEdB.uri = _
    rw [h.2.1]; decide

/-! ## Claim C3 (merge correctness of the builder) -/

/-- One building step on a removed segment that is not last: the removed
record becomes pending (any previously pending record is dropped). -/
theorem buildR_cons_removed (n : Int) (pending : Option RemovedChange)
    (p q : Segment) (rest : List Segment) (hp : p.kind = SegKind.removed) :
    buildChangesR n pending (p :: q :: rest) =
      buildChangesR (n + (p.lines.length : Int))
        (some { line := n, count := p.lines.length, value := p.lines })
        (q :: rest) := by
  simp [buildChangesR, hp]

/-- One building step on an added segment: a modified record when a removed
record is pending, else a standalone added record. -/
theorem buildR_cons_added (n : Int) (pending : Option RemovedChange)
    (p : Segment) (rest : List Segment) (hp : p.kind = SegKind.added) :
    buildChangesR n pending (p :: rest) =
      (match pending with
        | some lr =>
          Change.modified lr
            { line := n, count := p.lines.length, value := p.lines }
        | none =>
          Change.added
            { line := n, count := p.lines.length, value := p.lines }) ::
        buildChangesR (n + (p.lines.length : Int)) none rest := by
  simp [buildChangesR, hp]

/-- One building step on an unchanged segment: a pending removed record is
flushed as a standalone removed record. -/
theorem buildR_cons_unchanged (n : Int) (pending : Option RemovedChange)
    (p : Segment) (rest : List Segment) (hp : p.kind = SegKind.unchanged) :
    buildChangesR n pending (p :: rest) =
      (match pending with
        | some lr => [Change.removed lr]
        | none => []) ++
        buildChangesR (n + (p.lines.length : Int)) none rest := by
  simp [buildChangesR, hp]

/-- The source's builder coincides with the spec's merge description on
every segment sequence without two adjacent removed segments. -/
theorem buildR_eq_spec (n : Int) (parts : List Segment) :
    noAdjacentRemoved parts →
    buildChangesR n none parts = specMergeRecords n parts := by
  induction n, parts using specMergeRecords.induct with
  | case1 n => intro _; rfl
  | case2 n p hk => intro _; simp [buildChangesR, specMergeRecords, hk]
  | case3 n p hk => intro _; simp [buildChangesR, specMergeRecords, hk]
  | case4 n p hk => intro _; simp [buildChangesR, specMergeRecords, hk]
  | case5 n p q rest hp hq ih =>
    intro h
    have hrest : noAdjacentRemoved rest := (h.tail).tail
    simp [buildChangesR, specMergeRecords, hp, hq, ih hrest]
  | case6 n p q rest hp hq ih =>
    intro h
    have hrel : ¬(p.kind = SegKind.removed ∧ q.kind = SegKind.removed) :=
      (List.chain'_cons'.1 h).1 q rfl
    have hqk : q.kind = SegKind.unchanged := by
      cases hk : q.kind
      · rfl
      · exact absurd hk hq
      · exact absurd ⟨hp, hk⟩ hrel
    have htail : noAdjacentRemoved (q :: rest) := h.tail
    rw [buildR_cons_removed n none p q rest hp,
      buildR_cons_unchanged _ _ _ _ hqk]
    simp only [specMergeRecords, hp, hq, if_false]
    rw [← ih htail, buildR_cons_unchanged _ _ _ _ hqk]
    simp
  | case7 n p q rest hp ih =>
    intro h
    rw [buildR_cons_added n none p (q :: rest) hp, ih h.tail]
    simp [specMergeRecords, hp]
  | case8 n p q rest hp ih =>
    intro h
    rw [buildR_cons_unchanged n none p (q :: rest) hp, ih h.tail]
    simp [specMergeRecords, hp]

/-- C3: on differ output (no two adjacent removed segments) the builder
emits exactly the records of the spec's merge description -- one Modified
per removed-then-added pair, standalone Removed for a removed segment that
is last or followed by an unchanged segment, standalone Added otherwise --
and the line counter ends at the total line count of all segments,
advancing by every segment's count regardless of kind. -/
theorem claim_C3_merge_correctness (parts : List Segment)
    (h : noAdjacentRemoved parts) :
    (buildLoop buildInit parts).changes = specMergeRecords 0 parts ∧
    (buildLoop buildInit parts).lineNumber =
      (parts.map (fun p => (p.lines.length : Int))).sum := by
  constructor
  · rw [buildLoop_changes]
    simpa [buildInit] using buildR_eq_spec 0 parts h
  · rw [buildLoop_lineNumber]
    simp [buildInit]

/-- Witness for C3 on the concrete diff of `[A, B, C]` versus `[A, X, C]`:
one modified record pairing removed `B` with added `X`, and a final line
counter of 4 (all four segments counted). -/
theorem claim_C3_witness :
    (buildLoop buildInit exParts4).changes =
      [Change.modified { line := 1, count := 1, value := ["B"] }
          { line := 2, count := 1, value := ["X"] }] ∧
    (buildLoop buildInit exParts4).lineNumber = 4 := by
  have h := claim_C3_merge_correctness exParts4
    (by simp [noAdjacentRemoved, exParts4, List.chain'_cons])
  exact ⟨by rw [h.1]; decide, by rw [h.2]; decide⟩

/-! ## Claim C8 (ordering invariant) -/

/-- Shifting preserves well-formedness of a single change. -/
theorem wfChange_shift (k : Int) (c : Change) (h : wfChange c = true) :
    wfChange (shiftChange k c) = true := by
  cases c <;>
    simp [wfChange, shiftChange, shiftRemoved, shiftAdded] at h ⊢ <;> omega

/-- Primary line of a shifted change. -/
theorem changeFirstLine_shift (k : Int) (c : Change) :
    changeFirstLine (shiftChange k c) = changeFirstLine c - k := by
  cases c <;> simp [changeFirstLine, shiftChange, shiftRemoved, shiftAdded]

/-- End line of a shifted change. -/
theorem changeEndLine_shift (k : Int) (c : Change) :
    changeEndLine (shiftChange k c) = changeEndLine c - k := by
  cases c <;> simp [changeEndLine, shiftChange, shiftRemoved, shiftAdded] <;>
    omega

/-- The net accept deletion never exceeds the resolved change's span. -/
theorem specNetAccept_le_span (c : Change) (h : wfChange c = true) :
    (specNetAccept c : Int) ≤ changeEndLine c - changeFirstLine c := by
  cases c <;>
    simp [wfChange, specNetAccept, changeEndLine, changeFirstLine] at h ⊢ <;>
      omega

/-- The net reject deletion never exceeds the resolved change's span. -/
theorem specNetReject_le_span (c : Change) (h : wfChange c = true) :
    (specNetReject c : Int) ≤ changeEndLine c - changeFirstLine c := by
  cases c <;>
    simp [wfChange, specNetReject, changeEndLine, changeFirstLine] at h ⊢ <;>
      omega

/-- The building loop produces only well-formed, ordered, gap-respecting
changes: all counts positive, modified blocks aligned, spans disjoint and
ascending, every change at or after the pending record's line (or the
current line when nothing is pending). -/
theorem buildR_wf (parts : List Segment) :
    ∀ (n : Int) (pending : Option RemovedChange),
    (∀ lr ∈ pending, lr.line + (lr.count : Int) = n ∧ 0 < lr.count) →
    (∀ p ∈ parts, p.lines ≠ []) →
    (∀ c ∈ buildChangesR n pending parts, wfChange c = true) ∧
    List.Chain' (fun a b => changeEndLine a ≤ changeFirstLine b)
      (buildChangesR n pending parts) ∧
    (∀ c ∈ buildChangesR n pending parts,
      (match pending with | some lr => lr.line | none => n) ≤
        changeFirstLine c) := by
  induction parts with
  | nil => intro n pending _ _; simp [buildChangesR]
  | cons p rest ih =>
    intro n pending hpend hlines
    have hplines : p.lines ≠ [] := hlines p (by simp)
    have hcnt : 0 < p.lines.length := List.length_pos.2 hplines
    have hrest : ∀ q ∈ rest, q.lines ≠ [] := fun q hq => hlines q (by simp [hq])
    cases hk : p.kind with
    | unchanged =>
      rw [buildR_cons_unchanged n pending p rest hk]
      obtain ⟨ihwf, ihch, ihlb⟩ :=
        ih (n + (p.lines.length : Int)) none (by simp) hrest
      cases pending with
      | none =>
        simp only [List.nil_append]
        refine ⟨ihwf, ihch, ?_⟩
        intro c hc
        have := ihlb c hc
        simp only at this ⊢
        omega
      | some lr =>
        obtain ⟨hlr1, hlr2⟩ := hpend lr rfl
        simp only [List.singleton_append]
        refine ⟨?_, ?_, ?_⟩
        · intro c hc
          rcases List.mem_cons.1 hc with rfl | hc'
          · simp [wfChange]; omega
          · exact ihwf c hc'
        · rw [List.chain'_cons']
          refine ⟨?_, ihch⟩
          intro y hy
          have hy' := List.mem_of_mem_head? hy
          have := ihlb y hy'
          simp only [changeEndLine] at this ⊢
          omega
        · intro c hc
          rcases List.mem_cons.1 hc with rfl | hc'
          · simp [changeFirstLine]
          · have := ihlb c hc'
            simp only at this ⊢
            omega
    | added =>
      rw [buildR_cons_added n pending p rest hk]
      obtain ⟨ihwf, ihch, ihlb⟩ :=
        ih (n + (p.lines.length : Int)) none (by simp) hrest
      cases pending with
      | none =>
        refine ⟨?_, ?_, ?_⟩
        · intro c hc
          rcases List.mem_cons.1 hc with rfl | hc'
          · simp [wfChange]; omega
          · exact ihwf c hc'
        · rw [List.chain'_cons']
          refine ⟨?_, ihch⟩
          intro y hy
          have hy' := List.mem_of_mem_head? hy
          have := ihlb y hy'
          simp only [changeEndLine] at this ⊢
          omega
        · intro c hc
          rcases List.mem_cons.1 hc with rfl | hc'
          · simp [changeFirstLine]
          · have := ihlb c hc'
            simp only at this ⊢
            omega
      | some lr =>
        obtain ⟨hlr1, hlr2⟩ := hpend lr rfl
        refine ⟨?_, ?_, ?_⟩
        · intro c hc
          rcases List.mem_cons.1 hc with rfl | hc'
          · simp [wfChange]; omega
          · exact ihwf c hc'
        · rw [List.chain'_cons']
          refine ⟨?_, ihch⟩
          intro y hy
          have hy' := List.mem_of_mem_head? hy
          have := ihlb y hy'
          simp only [changeEndLine] at this ⊢
          omega
        · intro c hc
          rcases List.mem_cons.1 hc with rfl | hc'
          · simp [changeFirstLine]
          · have := ihlb c hc'
            simp only at this ⊢
            omega
    | removed =>
      cases rest with
      | nil =>
        simp only [buildChangesR, hk, List.isEmpty_nil, if_true]
        refine ⟨?_, ?_, ?_⟩
        · intro c hc
          simp at hc
          subst hc
          simp [wfChange]; omega
        · simp
        · intro c hc
          simp at hc
          subst hc
          cases pending with
          | none => simp [changeFirstLine]
          | some lr =>
            obtain ⟨hlr1, hlr2⟩ := hpend lr rfl
            simp only [changeFirstLine]
            omega
      | cons q rest' =>
        rw [buildR_cons_removed n pending p q rest' hk]
        obtain ⟨ihwf, ihch, ihlb⟩ :=
          ih (n + (p.lines.length : Int))
            (some { line := n, count := p.lines.length, value := p.lines })
            (by intro lr hlr; cases hlr; constructor <;> simp [hcnt])
            hrest
        refine ⟨ihwf, ihch, ?_⟩
        intro c hc
        have := ihlb c hc
        simp only at this
        cases pending with
        | none => simp only at this ⊢; omega
        | some lr =>
          obtain ⟨hlr1, hlr2⟩ := hpend lr rfl
          simp only at this ⊢
          omega

/-- Renumbering after resolving the change at a valid index preserves
well-formedness whenever the decrement does not exceed the resolved
change's span. -/
theorem renumber_wf (cs : List Change) (i : Nat) (c : Change) (k : Nat)
    (hc : cs[i]? = some c) (hwf : WFChanges cs)
    (hk : (k : Int) ≤ changeEndLine c - changeFirstLine c) :
    WFChanges (renumber cs i k) := by
  obtain ⟨hlen, hci⟩ := List.getElem?_eq_some.1 hc
  obtain ⟨hall, hch⟩ := hwf
  have hdecomp : cs = cs.take i ++ c :: cs.drop (i + 1) := by
    conv_lhs => rw [← List.take_append_drop i cs]
    congr 1
    rw [List.drop_eq_getElem_cons hlen, hci]
  have hch2 := hch
  rw [hdecomp, List.chain'_append, List.chain'_cons'] at hch2
  obtain ⟨hchT, ⟨hcd, hchD⟩, hbound⟩ := hch2
  show WFChanges (cs.take i ++ (cs.drop (i + 1)).map (shiftChange (k : Int)))
  constructor
  · intro c' hc'
    rcases List.mem_append.1 hc' with hmem | hmem
    · exact hall c' (List.take_subset _ _ hmem)
    · obtain ⟨d, hd, rfl⟩ := List.mem_map.1 hmem
      exact wfChange_shift _ d (hall d (List.drop_subset _ _ hd))
  · rw [List.chain'_append]
    refine ⟨hchT, ?_, ?_⟩
    · rw [List.chain'_map]
      refine hchD.imp ?_
      intro a b hab
      rw [changeEndLine_shift, changeFirstLine_shift]
      omega
    · intro x hx y hy
      rw [List.head?_map] at hy
      cases hyo : (cs.drop (i + 1)).head? with
      | none => rw [hyo] at hy; simp at hy
      | some y₀ =>
        rw [hyo] at hy
        simp only [Option.map_some', Option.mem_def, Option.some.injEq] at hy
        subst hy
        have h1 : changeEndLine x ≤ changeFirstLine c := hbound x hx c rfl
        have h2 : changeEndLine c ≤ changeFirstLine y₀ := by
          apply hcd
          rw [hyo]; rfl
        rw [changeFirstLine_shift]
        omega

/-- C8: changes stored by `openDiffView` are sorted with disjoint spans;
after a single accept or reject, the change list stored for the document
(when one survives) is again sorted with disjoint spans. -/
theorem claim_C8_sorted_nonoverlapping :
    (∀ (m : List (String × FileChange)) (uri : String)
        (cur mod : List String) (parts : List Segment) (fc : FileChange),
      (∀ p ∈ parts, p.lines ≠ []) →
      mapGet (openDiffView m uri cur mod parts).fileChangeMap uri = some fc →
      WFChanges fc.changes) ∧
    (∀ (st : EngineState) (ed : Editor) (fc : FileChange) (i : Nat)
        (c : Change) (editOk : Bool) (cs' : List Change),
      st.activeEditor = some ed →
      mapGet st.fileChangeMap ed.uri = some fc →
      WFChanges fc.changes →
      fc.changes[i]? = some c →
      (changesAfter (acceptChange st ed.uri (some (i : Int)) editOk) ed.uri =
          some cs' → WFChanges cs') ∧
      (changesAfter (rejectChange st ed.uri (some (i : Int)) editOk) ed.uri =
          some cs' → WFChanges cs')) := by
  constructor
  · intro m uri cur mod parts fc hlines hget
    have hstored : mapGet (openDiffView m uri cur mod parts).fileChangeMap uri =
        some { originalContent := cur, modifiedContent := mod,
               changes := (buildLoop buildInit parts).changes } := by
      simp [openDiffView, buildInit, mapGet_mapSet_self]
    rw [hstored] at hget
    obtain rfl := Option.some_injective _ hget
    show WFChanges (buildLoop buildInit parts).changes
    rw [buildLoop_changes]
    obtain ⟨h1, h2, _⟩ := buildR_wf parts 0 none (by simp) hlines
    exact ⟨by simpa [buildInit] using h1, by simpa [buildInit] using h2⟩
  · intro st ed fc i c editOk cs' h1 h3 hwf h4
    have h4' : getChange fc.changes (i : Int) = some c := by
      rw [getChange_natCast]; exact h4
    have hwfc : wfChange c = true := hwf.1 c (List.getElem?_mem h4)
    constructor
    · intro hres
      rw [acceptChange_resolve st ed fc (i : Int) c editOk h1 h3 h4'] at hres
      simp only [changesAfter] at hres
      rw [acceptResolve_changes, Int.toNat_ofNat] at hres
      split at hres
      · simp at hres
      · obtain rfl : renumber fc.changes i (acceptEditParams c).2.2 = cs' :=
          Option.some.inj hres
        rw [acceptEditParams_count]
        exact renumber_wf fc.changes i c _ h4 hwf (specNetAccept_le_span c hwfc)
    · intro hres
      rw [rejectChange_resolve st ed fc (i : Int) c editOk h1 h3 h4'] at hres
      simp only [changesAfter] at hres
      rw [rejectResolve_changes, Int.toNat_ofNat] at hres
      split at hres
      · simp at hres
      · obtain rfl : renumber fc.changes i (rejectEditParams c).2.2 = cs' :=
          Option.some.inj hres
        rw [rejectEditParams_count]
        exact renumber_wf fc.changes i c _ h4 hwf (specNetReject_le_span c hwfc)

/-- Witness for C8: the changeset built for `[A, B, C]` versus `[A, X, C]`
is well-formed, and so is the list left by accepting the first of the three
records of the renumbering scenario. -/
theorem claim_C8_witness :
    WFChanges [Change.modified { line := 1, count := 1, value := ["B"] }
        { line := 2, count := 1, value := ["X"] }] ∧
    WFChanges [Change.added { line := 5, count := 1, value := ["a1"] },
      Change.removed { line := 12, count := 2, value := ["r4", "r5"] }] := by
  constructor
  · exact claim_C8_sorted_nonoverlapping.1 [] "u" ["A", "B", "C"]
      ["A", "X", "C"] exParts4
      { originalContent := ["A", "B", "C"], modifiedContent := ["A", "X", "C"],
        changes := [Change.modified { line := 1, count := 1, value := ["B"] }
          { line := 2, count := 1, value := ["X"] }] }
      (by decide) (by decide)
  · exact (claim_C8_sorted_nonoverlapping.2 exStB exEdB exFcB 0
      (Change.removed { line := 2, count := 3, value := ["r1", "r2", "r3"] })
      true
      [Change.added { line := 5, count := 1, value := ["a1"] },
        Change.removed { line := 12, count := 2, value := ["r4", "r5"] }]
      rfl (by decide) (by decide) (by decide)).1 (by decide)

/-! ## Claim C1 (round-trip identity of bulk resolution) -/

/-- Folding the single-range cuts over the reversed (hence descending)
span list equals the right fold over the ascending list. -/
theorem applyCutsDesc_reverse (doc : List String) (spans : List (Int × Nat)) :
    applyCutsDesc doc spans.reverse =
      spans.foldr (fun s d => cutSpan d s) doc := by
  rw [applyCutsDesc, List.foldl_reverse]

/-- Cutting, from the highest down, the spans of the kind-`k` segments out
of a buffer that is a prefix `pre` followed by the concatenation of all
segments leaves `pre` followed by the lines of the other segments. -/
theorem cutAll_kept (k : SegKind) :
    ∀ (parts : List Segment) (pre : List String),
    (spansOf k (pre.length : Int) parts).foldr (fun s d => cutSpan d s)
        (pre ++ combinedOf parts) = pre ++ keptOf k parts := by
  intro parts
  induction parts with
  | nil => intro pre; simp [spansOf, combinedOf, keptOf]
  | cons p rest ih =>
    intro pre
    have hcomb : combinedOf (p :: rest) = p.lines ++ combinedOf rest := by
      simp [combinedOf]
    have hinner := ih (pre ++ p.lines)
    rw [show (((pre ++ p.lines).length : Nat) : Int) =
        (pre.length : Int) + (p.lines.length : Int) by
      simp [List.length_append]] at hinner
    by_cases hk : p.kind = k
    · rw [hcomb,
        show spansOf k (pre.length : Int) (p :: rest) =
          ((pre.length : Int), p.lines.length) ::
            spansOf k ((pre.length : Int) + (p.lines.length : Int)) rest from
          by simp [spansOf, hk],
        List.foldr_cons, ← List.append_assoc, hinner,
        show keptOf k (p :: rest) = keptOf k rest from by simp [keptOf, hk]]
      simp only [cutSpan]
      rw [show (((pre.length : Nat) : Int)).toNat = pre.length by omega,
        show (((pre.length : Nat) : Int) +
          ((p.lines.length : Nat) : Int)).toNat =
            pre.length + p.lines.length by omega]
      rw [show ((pre ++ p.lines) ++ keptOf k rest).take pre.length = pre from
          by rw [List.append_assoc]; exact List.take_left pre _,
        List.drop_left' (by simp)]
    · rw [hcomb,
        show spansOf k (pre.length : Int) (p :: rest) =
          spansOf k ((pre.length : Int) + (p.lines.length : Int)) rest from
          by simp [spansOf, hk],
        ← List.append_assoc, hinner,
        show keptOf k (p :: rest) = p.lines ++ keptOf k rest from
          by simp [keptOf, hk]]
      rw [List.append_assoc]

/-- The deletion spans collected by the `acceptAllChanges` loop (before
reversal) are exactly the removed segments' positions, given differ output
(no adjacent removed segments) and a pending record only when the next
segment pairs with or flushes it. -/
theorem buildR_acceptSpans :
    ∀ (parts : List Segment) (n : Int) (pending : Option RemovedChange),
    noAdjacentRemoved parts →
    (∀ lr ∈ pending, parts.head?.isSome = true ∧
      ∀ q ∈ parts.head?, q.kind ≠ SegKind.removed) →
    (buildChangesR n pending parts).filterMap changeAcceptAllSpan =
      (match pending with
        | some lr => [(lr.line, lr.count)]
        | none => []) ++ spansOf SegKind.removed n parts := by
  intro parts
  induction parts with
  | nil =>
    intro n pending _ hpend
    cases pending with
    | none => simp [buildChangesR, spansOf]
    | some lr =>
      obtain ⟨hs, _⟩ := hpend lr rfl
      simp at hs
  | cons p rest ih =>
    intro n pending hAdj hpend
    cases hk : p.kind with
    | removed =>
      have hpnone : pending = none := by
        cases pending with
        | none => rfl
        | some lr =>
          obtain ⟨_, hq⟩ := hpend lr rfl
          exact absurd hk (hq p rfl)
      subst hpnone
      cases rest with
      | nil =>
        simp [buildChangesR, hk, changeAcceptAllSpan, spansOf]
      | cons q rest' =>
        rw [buildR_cons_removed n none p q rest' hk]
        have hqk : q.kind ≠ SegKind.removed := by
          intro hqk
          exact (List.chain'_cons'.1 hAdj).1 q rfl ⟨hk, hqk⟩
        rw [ih (n + (p.lines.length : Int))
          (some { line := n, count := p.lines.length, value := p.lines })
          hAdj.tail
          (by
            intro lr hlr
            refine ⟨rfl, ?_⟩
            intro q' hq'
            cases hq'
            exact hqk)]
        simp [spansOf, hk]
    | added =>
      rw [buildR_cons_added n pending p rest hk]
      rw [List.filterMap_cons]
      rw [ih (n + (p.lines.length : Int)) none hAdj.tail (by simp)]
      cases pending with
      | none => simp [changeAcceptAllSpan, spansOf, hk]
      | some lr => simp [changeAcceptAllSpan, spansOf, hk]
    | unchanged =>
      rw [buildR_cons_unchanged n pending p rest hk]
      rw [List.filterMap_append]
      rw [ih (n + (p.lines.length : Int)) none hAdj.tail (by simp)]
      cases pending with
      | none => simp [changeAcceptAllSpan, spansOf, hk]
      | some lr => simp [changeAcceptAllSpan, spansOf, hk]

/-- The deletion spans collected by the `rejectAllChanges` loop (before
reversal) are exactly the added segments' positions, for any segment
sequence and pending record. -/
theorem buildR_rejectSpans :
    ∀ (parts : List Segment) (n : Int) (pending : Option RemovedChange),
    (buildChangesR n pending parts).filterMap changeRejectAllSpan =
      spansOf SegKind.added n parts := by
  intro parts
  induction parts with
  | nil => intro n pending; simp [buildChangesR, spansOf]
  | cons p rest ih =>
    intro n pending
    cases hk : p.kind with
    | removed =>
      cases rest with
      | nil => simp [buildChangesR, hk, changeRejectAllSpan, spansOf]
      | cons q rest' =>
        rw [buildR_cons_removed n pending p q rest' hk,
          ih (n + (p.lines.length : Int)) _]
        simp [spansOf, hk]
    | added =>
      rw [buildR_cons_added n pending p rest hk, List.filterMap_cons,
        ih (n + (p.lines.length : Int)) none]
      cases pending with
      | none => simp [changeRejectAllSpan, spansOf, hk]
      | some lr => simp [changeRejectAllSpan, spansOf, hk]
    | unchanged =>
      rw [buildR_cons_unchanged n pending p rest hk, List.filterMap_append,
        ih (n + (p.lines.length : Int)) none]
      cases pending with
      | none => simp [changeRejectAllSpan, spansOf, hk]
      | some lr => simp [changeRejectAllSpan, spansOf, hk]

/-- C1: applying a diff (which writes the combined buffer into the
document) and then resolving every record via the descending-index bulk
accept yields the modified text `M`, while resolving all via the
descending-index bulk reject yields the original text `O`.  `parts` is the
differ's output for `(O, M)`: the non-added segments concatenate to `O`,
the non-removed segments to `M`, and no two adjacent segments are both
removed. -/
theorem claim_C1_round_trip (m : List (String × FileChange)) (uri : String)
    (O M : List String) (parts : List Segment) (sch : UriScheme)
    (dirty : Bool)
    (hO : O = keptOf SegKind.added parts)
    (hM : M = keptOf SegKind.removed parts)
    (hAdj : noAdjacentRemoved parts) :
    (acceptAllChanges (openDiffView m uri O M parts).fileChangeMap uri
        (openDiffView m uri O M parts).doc sch dirty).doc = M ∧
    (rejectAllChanges (openDiffView m uri O M parts).fileChangeMap uri
        (openDiffView m uri O M parts).doc sch dirty).doc = O := by
  have hdoc : (openDiffView m uri O M parts).doc = combinedOf parts := by
    simp [openDiffView, buildLoop_combine, buildInit, combinedOf]
  have hget : mapGet (openDiffView m uri O M parts).fileChangeMap uri =
      some { originalContent := O, modifiedContent := M,
             changes := buildChangesR 0 none parts } := by
    simp [openDiffView, buildInit, mapGet_mapSet_self, buildLoop_changes]
  have hcutA := cutAll_kept SegKind.removed parts []
  simp only [List.length_nil, Nat.cast_zero, List.nil_append] at hcutA
  have hcutR := cutAll_kept SegKind.added parts []
  simp only [List.length_nil, Nat.cast_zero, List.nil_append] at hcutR
  have hA := buildR_acceptSpans parts 0 none hAdj (by simp)
  simp only [List.nil_append] at hA
  have hR := buildR_rejectSpans parts 0 none
  constructor
  · rw [show acceptAllChanges (openDiffView m uri O M parts).fileChangeMap uri
        (openDiffView m uri O M parts).doc sch dirty =
        acceptAllChanges (openDiffView m uri O M parts).fileChangeMap uri
        (combinedOf parts) sch dirty from by rw [hdoc]]
    simp only [acceptAllChanges, hget]
    rw [List.filterMap_reverse, hA, applyCutsDesc_reverse, hcutA]
    exact hM.symm
  · rw [show rejectAllChanges (openDiffView m uri O M parts).fileChangeMap uri
        (openDiffView m uri O M parts).doc sch dirty =
        rejectAllChanges (openDiffView m uri O M parts).fileChangeMap uri
        (combinedOf parts) sch dirty from by rw [hdoc]]
    cases hsch : sch <;>
      · simp only [rejectAllChanges, hget, hsch]
        rw [List.filterMap_reverse, hR, applyCutsDesc_reverse, hcutR]
        simp [hO]

/-- Witness for C1 on original `[A, B, C]` and modified `[A, X, C]`. -/
theorem claim_C1_witness :
    (acceptAllChanges
        (openDiffView [] "u" ["A", "B", "C"] ["A", "X", "C"]
          exParts4).fileChangeMap "u"
        (openDiffView [] "u" ["A", "B", "C"] ["A", "X", "C"] exParts4).doc
        UriScheme.file true).doc = ["A", "X", "C"] ∧
    (rejectAllChanges
        (openDiffView [] "u" ["A", "B", "C"] ["A", "X", "C"]
          exParts4).fileChangeMap "u"
        (openDiffView [] "u" ["A", "B", "C"] ["A", "X", "C"] exParts4).doc
        UriScheme.file true).doc = ["A", "B", "C"] :=
  claim_C1_round_trip [] "u" ["A", "B", "C"] ["A", "X", "C"] exParts4
    UriScheme.file true (by decide) (by decide)
    (by simp [noAdjacentRemoved, exParts4, List.chain'_cons])
